import Mathlib

/-!
Shallow embedding of the notification store (`src/notification.rs`).

The Rust `Manager` wraps an `Arc<RwLock<Vec<Notification>>>`; every operation
takes the lock for its whole body, so each operation is an atomic function on
the underlying `Vec<Notification>`.  We model the store as `List Notification`
and each Manager operation as a pure function on it.  Operations that can
panic in Rust (out-of-range indexing) return `Option`, with `none` modelling
the panic.
-/

namespace Runst

/-- Possible urgency levels for the notification (`enum Urgency`). -/
inductive Urgency where
  | Low
  | Normal
  | Critical
deriving DecidableEq, Repr

/-- `impl From<u64> for Urgency`: 0 is Low, 1 is Normal, 2 is Critical,
anything else the default (Normal). -/
def Urgency.fromOrdinal (value : Nat) : Urgency :=
  match value with
  | 0 => Urgency.Low
  | 1 => Urgency.Normal
  | 2 => Urgency.Critical
  | _ => Urgency.Normal

/-- Representation of a notification (`struct Notification`).
`expire_timeout` is an optional duration, carried but never interpreted;
we model the `Duration` payload as its number of milliseconds. -/
structure Notification where
  id : Nat
  app_name : String
  summary : String
  body : String
  expire_timeout : Option Nat
  urgency : Urgency
  is_read : Bool
deriving DecidableEq, Repr

/-- `Manager::init`: creates an empty store. -/
def init : List Notification := []

/-- `Manager::add`: pushes the notification at the end of the vector. -/
def add (s : List Notification) (n : Notification) : List Notification :=
  s ++ [n]

/-- `Manager::get_last_unread`: filters the unread notifications and indexes
the result at `len - 1`.  The Rust code panics when the filtered vector is
empty (index out of range); `none` models that panic. -/
def get_last_unread (s : List Notification) : Option Notification :=
  let l := s.filter (fun v => !v.is_read)
  l.get? (l.length - 1)

/-- `Manager::mark_last_as_read`: sets `is_read` on the last element of
`iter_mut().filter(|v| !v.is_read)`, i.e. on the highest-index unread entry;
does nothing when there is none. -/
def mark_last_as_read : List Notification → List Notification
  | [] => []
  | n :: rest =>
    if rest.any (fun v => !v.is_read) then
      n :: mark_last_as_read rest
    else if !n.is_read then
      { n with is_read := true } :: rest
    else
      n :: rest

/-- Rust's `Iterator::position`: index of the first element satisfying the
predicate. -/
def position (p : Notification → Bool) : List Notification → Option Nat
  | [] => none
  | n :: rest => if p n then some 0 else (position p rest).map (fun i => i + 1)

/-- In-place update `notifications[i].is_read = b` of the vector. -/
def setRead (b : Bool) : Nat → List Notification → List Notification
  | _, [] => []
  | 0, n :: rest => { n with is_read := b } :: rest
  | i + 1, n :: rest => n :: setRead b i rest

/-- `Manager::mark_next_as_unread`: finds the position of the first unread
entry.  If there is none it sets `notifications[len - 1].is_read = false`
(panicking when the store is empty, modelled by `none`) and returns `true`.
If the position is `index`, it sets `notifications[index].is_read = true`,
then if `index > 0` it sets `notifications[index - 1].is_read = false` and
returns `true`, otherwise it returns `false`.  The result pairs the returned
boolean with the updated store. -/
def mark_next_as_unread (s : List Notification) : Option (Bool × List Notification) :=
  match position (fun v => !v.is_read) s with
  | none =>
    if s.length = 0 then none
    else some (true, setRead false (s.length - 1) s)
  | some index =>
    if index > 0 then
      some (true, setRead false (index - 1) (setRead true index s))
    else
      some (false, setRead true index s)

/-- `Manager::mark_as_read`: marks the first entry whose `id` matches as
read; no-op when absent. -/
def mark_as_read (id : Nat) : List Notification → List Notification
  | [] => []
  | n :: rest =>
    if n.id = id then { n with is_read := true } :: rest
    else n :: mark_as_read id rest

/-- `Manager::mark_all_as_read`: sets `is_read` on every entry. -/
def mark_all_as_read (s : List Notification) : List Notification :=
  s.map (fun n => { n with is_read := true })

/-- `Manager::get_unread_count`: number of entries with `is_read == false`. -/
def get_unread_count (s : List Notification) : Nat :=
  (s.filter (fun v => !v.is_read)).length

/-- `Manager::is_unread`: `find` the first entry with the given id, map to
its negated `is_read`, defaulting to `false` when absent. -/
def is_unread (id : Nat) (s : List Notification) : Bool :=
  ((s.find? (fun n => n.id = id)).map (fun v => !v.is_read)).getD false

/-- A sequence of `add` calls, in order. -/
def addAll (s : List Notification) (ns : List Notification) : List Notification :=
  ns.foldl add s

/-- Everything of a notification except its `is_read` flag (the flag is
normalised to `false`).  Two stores with equal `map core` images hold the
same entries, in the same order, up to their read flags. -/
def core (n : Notification) : Notification :=
  { n with is_read := false }

/-- Index of the lowest-index entry with `is_read == false`, written from
the spec: the head is inspected first, so the first unread entry found is
the lowest-index one. -/
def firstUnreadIdx : List Notification → Option Nat
  | [] => none
  | n :: rest =>
    if n.is_read then (firstUnreadIdx rest).map (fun i => i + 1)
    else some 0

/-- Index of the highest-index entry with `is_read == false`, written from
the spec: an unread entry in the tail takes precedence over the head. -/
def highestUnreadIdx : List Notification → Option Nat
  | [] => none
  | n :: rest =>
    match highestUnreadIdx rest with
    | some i => some (i + 1)
    | none => if n.is_read then none else some 0

/-- The cursor-stepping algorithm exactly as the spec words it: let `i` be
the index of the lowest-index unread entry.  If `i` is none, mark the last
entry unread and return `true` (no valid last entry on an empty store,
modelled by `none`).  If `i` is found, mark entry `i` as read;
if `i > 0`, mark entry `i - 1` as unread and return `true`; if `i == 0`,
return `false`. -/
def specCursorStep (s : List Notification) : Option (Bool × List Notification) :=
  match firstUnreadIdx s with
  | none =>
    if s.length = 0 then none
    else some (true, setRead false (s.length - 1) s)
  | some i =>
    if i = 0 then some (false, setRead true i s)
    else some (true, setRead false (i - 1) (setRead true i s))

/-- Sample unread notification with a given id. -/
def exU (i : Nat) : Notification :=
  ⟨i, "app", "summary", "body", none, Urgency.Normal, false⟩

/-- Sample read notification with a given id. -/
def exR (i : Nat) : Notification :=
  ⟨i, "app", "summary", "body", none, Urgency.Normal, true⟩

/-! ### Shared lemmas -/

theorem position_eq_firstUnreadIdx (s : List Notification) :
    position (fun v => !v.is_read) s = firstUnreadIdx s := by
  induction s with
  | nil => rfl
  | cons n rest ih =>
    obtain ⟨i, a, su, b, e, u, ir⟩ := n
    cases ir <;> simp [position, firstUnreadIdx, ih]

theorem all_read_mark_all (s : List Notification) :
    (mark_all_as_read s).all (fun n => n.is_read) = true := by
  induction s with
  | nil => rfl
  | cons n rest ih => simp [mark_all_as_read] at ih ⊢

theorem count_mark_all (s : List Notification) :
    get_unread_count (mark_all_as_read s) = 0 := by
  induction s with
  | nil => rfl
  | cons n rest ih =>
    simp [mark_all_as_read, get_unread_count, List.filter_cons] at ih ⊢

theorem is_unread_mark_all (id : Nat) (s : List Notification) :
    is_unread id (mark_all_as_read s) = false := by
  induction s with
  | nil => rfl
  | cons n rest ih =>
    by_cases h : n.id = id <;>
      simp [is_unread, mark_all_as_read, List.find?_cons, h] at ih ⊢
    exact ih

theorem core_setRead (b : Bool) (i : Nat) (s : List Notification) :
    (setRead b i s).map core = s.map core := by
  induction s generalizing i with
  | nil => cases i <;> rfl
  | cons n rest ih =>
    cases i with
    | zero => simp [setRead, core]
    | succ k => simp [setRead, ih]

theorem core_mark_last (s : List Notification) :
    (mark_last_as_read s).map core = s.map core := by
  induction s with
  | nil => rfl
  | cons n rest ih =>
    by_cases hr : rest.any (fun v => !v.is_read) = true
    · simp [mark_last_as_read, hr, ih]
    · by_cases hn : n.is_read = true <;>
        simp [mark_last_as_read, hr, hn, core]

theorem core_mark_as_read (id : Nat) (s : List Notification) :
    (mark_as_read id s).map core = s.map core := by
  induction s with
  | nil => rfl
  | cons n rest ih =>
    by_cases h : n.id = id <;> simp [mark_as_read, h, ih, core]

theorem core_mark_all (s : List Notification) :
    (mark_all_as_read s).map core = s.map core := by
  induction s with
  | nil => rfl
  | cons n rest ih => simp [mark_all_as_read, core] at ih ⊢

theorem count_add (s : List Notification) (n : Notification) :
    get_unread_count (add s n) =
      get_unread_count s + (if n.is_read then 0 else 1) := by
  by_cases h : n.is_read = true <;>
    simp [get_unread_count, add, List.filter_append, List.filter_cons, h]

theorem count_addAll (s ns : List Notification) :
    get_unread_count (addAll s ns) =
      get_unread_count s + (ns.filter (fun n => !n.is_read)).length := by
  induction ns generalizing s with
  | nil => simp [addAll]
  | cons n rest ih =>
    have hstep : addAll s (n :: rest) = addAll (add s n) rest := rfl
    rw [hstep, ih, count_add, List.filter_cons]
    by_cases h : n.is_read = true <;> simp [h] <;> omega

theorem get_last_unread_cons_of_any (n : Notification) (rest : List Notification)
    (h : rest.any (fun v => !v.is_read) = true) :
    get_last_unread (n :: rest) = get_last_unread rest := by
  have hne : rest.filter (fun v => !v.is_read) ≠ [] := by
    rw [Ne, List.filter_eq_nil_iff]
    rw [List.any_eq_true] at h
    obtain ⟨x, hx, hpx⟩ := h
    intro hall
    exact hall x hx hpx
  unfold get_last_unread
  by_cases hn : n.is_read = true
  · simp [List.filter_cons, hn]
  · have hn' : n.is_read = false := by
      cases hb : n.is_read
      · rfl
      · exact absurd hb hn
    obtain ⟨m, l', hl⟩ := List.exists_cons_of_ne_nil hne
    simp [List.filter_cons, hn', hl]

theorem get_last_unread_cons_head (n : Notification) (rest : List Notification)
    (hr : rest.any (fun v => !v.is_read) = false) (hn : n.is_read = false) :
    get_last_unread (n :: rest) = some n := by
  have hnil : rest.filter (fun v => !v.is_read) = [] := by
    rw [List.filter_eq_nil_iff]
    rw [List.any_eq_false] at hr
    exact hr
  unfold get_last_unread
  simp [List.filter_cons, hn, hnil]

theorem highestUnreadIdx_cons (n : Notification) (rest : List Notification) :
    highestUnreadIdx (n :: rest) =
      (match highestUnreadIdx rest with
        | some i => some (i + 1)
        | none => if n.is_read then none else some 0) := rfl

theorem mark_last_cons (n : Notification) (rest : List Notification) :
    mark_last_as_read (n :: rest) =
      (if rest.any (fun v => !v.is_read) then n :: mark_last_as_read rest
       else if !n.is_read then { n with is_read := true } :: rest
       else n :: rest) := rfl

theorem highestUnreadIdx_eq_none_iff (s : List Notification) :
    highestUnreadIdx s = none ↔ s.any (fun v => !v.is_read) = false := by
  induction s with
  | nil => simp [highestUnreadIdx]
  | cons n rest ih =>
    rw [highestUnreadIdx_cons]
    cases hq : highestUnreadIdx rest with
    | some i =>
      rw [hq] at ih
      have hra : rest.any (fun v => !v.is_read) = true := by
        cases hb : rest.any (fun v => !v.is_read)
        · exact absurd (ih.2 hb) (Option.some_ne_none i)
        · rfl
      simp [List.any_cons, hra]
    | none =>
      rw [hq] at ih
      have hra : rest.any (fun v => !v.is_read) = false := ih.1 rfl
      obtain ⟨i0, a, su, b, e, u, ir⟩ := n
      cases ir <;> simp [List.any_cons, hra]

theorem count_cons (n : Notification) (l : List Notification) :
    get_unread_count (n :: l) = (if n.is_read then 0 else 1) + get_unread_count l := by
  by_cases hn : n.is_read = true <;>
    simp [get_unread_count, List.filter_cons, hn] <;> omega

theorem count_eq_zero_iff (s : List Notification) :
    get_unread_count s = 0 ↔ s.any (fun v => !v.is_read) = false := by
  unfold get_unread_count
  rw [List.length_eq_zero, List.filter_eq_nil_iff, List.any_eq_false]

theorem mark_last_as_read_char (s : List Notification) :
    mark_last_as_read s =
      (match highestUnreadIdx s with
        | none => s
        | some i => setRead true i s) := by
  induction s with
  | nil => rfl
  | cons n rest ih =>
    rw [mark_last_cons, highestUnreadIdx_cons]
    by_cases hr : rest.any (fun v => !v.is_read) = true
    · have hne : highestUnreadIdx rest ≠ none := by
        rw [Ne, highestUnreadIdx_eq_none_iff, hr]
        simp
      obtain ⟨i, hi⟩ := Option.ne_none_iff_exists'.1 hne
      rw [hi] at ih
      simp only [] at ih
      rw [if_pos hr, hi, ih]
      simp [setRead]
    · have hr' : rest.any (fun v => !v.is_read) = false := by
        cases hb : rest.any (fun v => !v.is_read)
        · rfl
        · exact absurd hb hr
      have hnone : highestUnreadIdx rest = none :=
        (highestUnreadIdx_eq_none_iff rest).2 hr'
      rw [if_neg hr, hnone]
      obtain ⟨i0, a, su, b, e, u, ir⟩ := n
      cases ir <;> simp [setRead]

theorem count_mark_last_as_read (s : List Notification) :
    get_unread_count (mark_last_as_read s) = get_unread_count s - 1 := by
  induction s with
  | nil => rfl
  | cons n rest ih =>
    rw [mark_last_cons]
    by_cases hr : rest.any (fun v => !v.is_read) = true
    · have h1 : 1 ≤ get_unread_count rest := by
        by_contra hc
        have h0 : get_unread_count rest = 0 := by omega
        rw [count_eq_zero_iff] at h0
        rw [h0] at hr
        simp at hr
      rw [if_pos hr, count_cons, count_cons, ih]
      by_cases hn : n.is_read = true <;> simp [hn] <;> omega
    · have hr' : rest.any (fun v => !v.is_read) = false := by
        cases hb : rest.any (fun v => !v.is_read)
        · rfl
        · exact absurd hb hr
      have h0 : get_unread_count rest = 0 := (count_eq_zero_iff rest).2 hr'
      rw [if_neg hr]
      by_cases hn : n.is_read = true
      · rw [if_neg (by simp [hn] : ¬ ((!n.is_read) = true)), count_cons, h0]
        simp [hn]
      · have hn' : n.is_read = false := by
          cases hb : n.is_read
          · rfl
          · exact absurd hb hn
        rw [if_pos (by simp [hn'] : (!n.is_read) = true), count_cons, count_cons, h0]
        simp [hn']

theorem mark_last_as_read_noop (s : List Notification)
    (h : s.any (fun v => !v.is_read) = false) : mark_last_as_read s = s := by
  rw [mark_last_as_read_char, (highestUnreadIdx_eq_none_iff s).2 h]

/-! ### Claims -/

/-- C1: `mark_next_as_unread` follows the spec's cursor-stepping algorithm
exactly: with `i` the index of the lowest-index unread entry, if `i` is
none the last entry is marked unread and the call returns `true` (failing
on an empty store); if `i > 0`, entry `i` is marked read, entry `i - 1` is
marked unread, and the call returns `true`; if `i == 0`, entry `0` is
marked read and the call returns `false`. -/
theorem c1_mark_next_as_unread_follows_spec (s : List Notification) :
    mark_next_as_unread s = specCursorStep s := by
  unfold mark_next_as_unread specCursorStep
  rw [position_eq_firstUnreadIdx]
  cases h : firstUnreadIdx s with
  | none => rfl
  | some i =>
    cases i with
    | zero => rfl
    | succ k => simp

/-- C4: `get_last_unread` fails (modelled by `none`) if and only if the
store has zero unread entries, and `mark_next_as_unread` fails if and only
if the store is empty; under the respective preconditions the failing
branch is unreachable. -/
theorem c4_failure_conditions (s : List Notification) :
    (get_last_unread s = none ↔ get_unread_count s = 0) ∧
    (mark_next_as_unread s = none ↔ s = []) := by
  constructor
  · unfold get_last_unread get_unread_count
    rw [List.get?_eq_none]
    omega
  · unfold mark_next_as_unread
    cases s with
    | nil => simp [position]
    | cons n rest =>
      cases h : position (fun v => !v.is_read) (n :: rest) with
      | none => simp
      | some i => by_cases hi : i > 0 <;> simp [hi]

/-- C6: after `mark_all_as_read`, every stored entry has `is_read == true`,
`get_unread_count` returns 0, and `is_unread id` is `false` for every id. -/
theorem c6_mark_all_as_read (s : List Notification) (id : Nat) :
    (mark_all_as_read s).all (fun n => n.is_read) = true ∧
    get_unread_count (mark_all_as_read s) = 0 ∧
    is_unread id (mark_all_as_read s) = false :=
  ⟨all_read_mark_all s, count_mark_all s, is_unread_mark_all id s⟩

/-- C5: every Manager operation preserves the sequence of entries: equal
`map core` images mean no entry is removed or reordered and no field other
than `is_read` is ever mutated; `add` grows the store only by appending at
the end. -/
theorem c5_sequence_preserved (s : List Notification) (id : Nat) (n : Notification) :
    (mark_last_as_read s).map core = s.map core ∧
    (mark_all_as_read s).map core = s.map core ∧
    (mark_as_read id s).map core = s.map core ∧
    (mark_next_as_unread s).map (fun p => p.2.map core) =
      (mark_next_as_unread s).map (fun _ => s.map core) ∧
    (add s n).map core = s.map core ++ [core n] := by
  refine ⟨core_mark_last s, core_mark_all s, core_mark_as_read id s, ?_, ?_⟩
  · unfold mark_next_as_unread
    cases position (fun v => !v.is_read) s with
    | none => by_cases h : s.length = 0 <;> simp [h, core_setRead]
    | some i => by_cases h : i > 0 <;> simp [h, core_setRead]
  · simp [add]

/-- C7 counterexample: adding a single notification whose `is_read` is
already `true` to a fresh store leaves `get_unread_count` at 0, not at the
number of notifications added (1). -/
theorem c7_counterexample :
    get_unread_count (addAll init [exR 1]) = 0 ∧
    ([exR 1] : List Notification).length = 1 ∧
    get_unread_count (addAll init [exR 1]) ≠ ([exR 1] : List Notification).length := by
  refine ⟨rfl, rfl, by decide⟩

/-- C7 amended: for every sequence of `add` calls of notifications whose
`is_read` flag is `false` on a freshly initialized Manager, with no
intervening mark operations, `get_unread_count` equals the number of
notifications added so far. -/
theorem c7_count_after_adds (ns : List Notification)
    (h : ns.all (fun n => !n.is_read) = true) :
    get_unread_count (addAll init ns) = ns.length := by
  rw [count_addAll]
  have hself : ns.filter (fun n => !n.is_read) = ns :=
    List.filter_eq_self.2 (by simpa [List.all_eq_true] using h)
  simp [init, get_unread_count, hself]

/-- C7 witness: three fresh unread notifications give count 3. -/
theorem c7_count_after_adds_witness :
    get_unread_count (addAll init [exU 1, exU 2, exU 3]) = 3 :=
  c7_count_after_adds [exU 1, exU 2, exU 3] (by decide)

/-- C2 counterexample: on a store of N = 2 all-unread entries the very
first call to `mark_next_as_unread` already returns `false` (the claim
requires `true` to be returned N - 1 = 1 times first), and it leaves entry
0 read and entry 1 unread (the claim requires entry 0 unread and all
others read after the false-returning call). -/
theorem c2_counterexample :
    (mark_next_as_unread [exU 1, exU 2]).map (fun p => p.1) = some false ∧
    (mark_next_as_unread [exU 1, exU 2]).map (fun p => p.2.map (fun n => n.is_read)) =
      some [true, false] ∧
    some [true, false] ≠ some ([false, true] : List Bool) :=
  ⟨rfl, rfl, by decide⟩

/-- C2 amended: starting from a store of N ≥ 1 entries that are all
unread, repeated calls to `mark_next_as_unread` return `true` exactly 0
times before the first `false`: the very first call returns `false`, and
after it entry 0 is read while every other entry is unchanged (still
unread). -/
theorem c2_first_call_on_all_unread (n : Notification) (rest : List Notification)
    (h : (n :: rest).all (fun v => !v.is_read) = true) :
    mark_next_as_unread (n :: rest) = some (false, { n with is_read := true } :: rest) := by
  have hn : n.is_read = false := by
    simp [List.all_cons] at h
    simpa using h.1
  simp [mark_next_as_unread, position, setRead, hn]

/-- C2 witness: on two concrete all-unread entries the first call returns
`false` and marks entry 0 read. -/
theorem c2_first_call_on_all_unread_witness :
    mark_next_as_unread [exU 1, exU 2] =
      some (false, { exU 1 with is_read := true } :: [exU 2]) :=
  c2_first_call_on_all_unread (exU 1) [exU 2] (by decide)

/-- C9: for a non-empty store, `mark_next_as_unread` returns `false` if
and only if the lowest-index unread entry is at index 0 before the call,
and in that case the call marks entry 0 read and changes nothing else
(`setRead true 0 s`), so after a false return entry 0 is read. -/
theorem c9_false_return_characterisation (s : List Notification) (h : s ≠ []) :
    ((mark_next_as_unread s).map (fun p => p.1) = some false ↔
      firstUnreadIdx s = some 0) ∧
    (firstUnreadIdx s = some 0 →
      mark_next_as_unread s = some (false, setRead true 0 s)) := by
  unfold mark_next_as_unread
  rw [position_eq_firstUnreadIdx]
  cases hf : firstUnreadIdx s with
  | none =>
    cases s with
    | nil => simp at h
    | cons n rest => simp
  | some i =>
    cases i with
    | zero => simp
    | succ k => simp

/-- C9 witness: a singleton unread store returns `false` and marks its
only entry read. -/
theorem c9_false_return_characterisation_witness :
    ((mark_next_as_unread [exU 1]).map (fun p => p.1) = some false ↔
      firstUnreadIdx [exU 1] = some 0) ∧
    (firstUnreadIdx [exU 1] = some 0 →
      mark_next_as_unread [exU 1] = some (false, setRead true 0 [exU 1])) :=
  c9_false_return_characterisation [exU 1] (by decide)

/-- C8: `mark_last_as_read` sets the highest-index unread entry to read
and is a no-op when no unread entry exists; in particular, on a store with
exactly one unread entry, calling it twice in a row yields the same state
as calling it once. -/
theorem c8_mark_last_as_read_idempotent (s : List Notification) :
    (mark_last_as_read s =
      (match highestUnreadIdx s with
        | none => s
        | some i => setRead true i s)) ∧
    (get_unread_count s = 1 →
      mark_last_as_read (mark_last_as_read s) = mark_last_as_read s) := by
  refine ⟨mark_last_as_read_char s, fun h1 => ?_⟩
  have h0 : get_unread_count (mark_last_as_read s) = 0 := by
    rw [count_mark_last_as_read, h1]
  exact mark_last_as_read_noop _ ((count_eq_zero_iff _).1 h0)

/-- C8 witness: on a two-entry store with exactly one unread entry, the
second call is a no-op. -/
theorem c8_mark_last_as_read_idempotent_witness :
    mark_last_as_read (mark_last_as_read [exR 1, exU 2]) =
      mark_last_as_read [exR 1, exU 2] :=
  (c8_mark_last_as_read_idempotent [exR 1, exU 2]).2 (by decide)

/-- C10: `add` appends the given notification verbatim, without modifying
any field; it does not reset `is_read`, so adding an already-read
notification leaves `get_unread_count` unchanged, and all previously
stored entries are untouched. -/
theorem c10_add_verbatim (s : List Notification) (n : Notification)
    (h : n.is_read = true) :
    add s n = s ++ [n] ∧
    get_unread_count (add s n) = get_unread_count s ∧
    (add s n).take s.length = s := by
  refine ⟨rfl, ?_, ?_⟩
  · rw [count_add, h]; simp
  · simp [add]

/-- C3: for every store containing at least one unread entry,
`get_last_unread` returns a copy of the unread entry with the highest
index: the entry at some index `i` is returned, it is unread, and every
entry at an index above `i` is read.  The operation is a pure query on the
store (it returns a copy and leaves the store unchanged by construction). -/
theorem c3_get_last_unread_highest (s : List Notification)
    (h : s.any (fun v => !v.is_read) = true) :
    ∃ i n, s.get? i = some n ∧ n.is_read = false ∧ get_last_unread s = some n ∧
      ∀ j m, i < j → s.get? j = some m → m.is_read = true := by
  induction s with
  | nil => simp at h
  | cons n rest ih =>
    by_cases hr : rest.any (fun v => !v.is_read) = true
    · obtain ⟨i, m, h1, h2, h3, h4⟩ := ih hr
      refine ⟨i + 1, m, by simpa using h1, h2, ?_, ?_⟩
      · rw [get_last_unread_cons_of_any n rest hr]
        exact h3
      · intro j m' hj hget
        cases j with
        | zero => omega
        | succ j' => exact h4 j' m' (by omega) (by simpa using hget)
    · have hr' : rest.any (fun v => !v.is_read) = false := by
        cases hb : rest.any (fun v => !v.is_read)
        · rfl
        · exact absurd hb hr
      have hn : n.is_read = false := by
        simp [List.any_cons, hr'] at h
        simpa using h
      refine ⟨0, n, rfl, hn, get_last_unread_cons_head n rest hr' hn, ?_⟩
      intro j m' hj hget
      cases j with
      | zero => omega
      | succ j' =>
        have hmem : m' ∈ rest := List.get?_mem (by simpa using hget)
        rw [List.any_eq_false] at hr'
        have hm := hr' m' hmem
        simpa using hm

/-- C3 witness: on a store whose unread entries sit at indices 0 and 1 and
whose index-2 entry is read, the highest-index unread entry is returned. -/
theorem c3_get_last_unread_highest_witness :
    ∃ i n, ([exU 1, exU 2, exR 3] : List Notification).get? i = some n ∧
      n.is_read = false ∧ get_last_unread [exU 1, exU 2, exR 3] = some n ∧
      ∀ j m, i < j → ([exU 1, exU 2, exR 3] : List Notification).get? j = some m →
        m.is_read = true :=
  c3_get_last_unread_highest [exU 1, exU 2, exR 3] (by decide)

/-- C10 witness: adding a concrete already-read notification to a store of
one unread entry keeps the count at 1 and the prefix unchanged. -/
theorem c10_add_verbatim_witness :
    add [exU 1] (exR 2) = [exU 1] ++ [exR 2] ∧
    get_unread_count (add [exU 1] (exR 2)) = get_unread_count [exU 1] ∧
    (add [exU 1] (exR 2)).take ([exU 1] : List Notification).length = [exU 1] :=
  c10_add_verbatim [exU 1] (exR 2) (by decide)

end Runst


